import Mathlib

/-!
Shallow embedding of `grab-licenses.py` (a node_modules license report tool)
and proofs about its specification claims.

Modelling conventions:
* A Python `str` is a sequence of Unicode code points, modelled as `List Char`
  (abbreviated `Str`).
* Raw file bytes are modelled as `List Nat` (each entry < 256).
* Python exceptions are modelled with `Except PyErr`; a function that can raise
  an uncaught exception returns `Except PyErr α`.
* JSON documents (the result of `json.loads`) are modelled by the inductive
  type `Json`.  File paths are modelled as lists of path segments where the
  code splits on `os.sep`; the POSIX separator `/` is assumed.
-/

namespace GrabLicenses

/-- A Python string: a sequence of Unicode code points. -/
abbrev Str := List Char

/-- Characters stripped by Python `str.strip()` with no arguments, restricted
to the ASCII whitespace characters (space, tab, LF, CR, VT, FF).  Python also
strips other Unicode whitespace; no string handled in this development
contains such characters. -/
def isPySpace (c : Char) : Bool :=
  c == ' ' || c == '\t' || c == '\n' || c == '\r' || c == Char.ofNat 11 || c == Char.ofNat 12

/-- Model of Python `str.strip()`: remove leading and trailing whitespace. -/
def pyStrip (s : Str) : Str :=
  ((s.dropWhile isPySpace).reverse.dropWhile isPySpace).reverse

/-- A JSON document as returned by Python `json.loads`.  JSON numbers are
modelled as integers (no claim in this development depends on float values). -/
inductive Json where
  | null
  | bool (b : Bool)
  | num (n : Int)
  | str (s : Str)
  | arr (items : List Json)
  | obj (fields : List (Str × Json))

/-- Python truthiness of a JSON value (`if data:` / `x or y`). -/
def truthy : Json → Bool
  | .null => false
  | .bool b => b
  | .num n => n != 0
  | .str s => !s.isEmpty
  | .arr items => !items.isEmpty
  | .obj fields => !fields.isEmpty

/-- Python `a or b`: the first operand when truthy, otherwise the second. -/
def pyOr (a b : Json) : Json := if truthy a then a else b

/-- Model of Python `dict.get(k)` on a parsed JSON object: the value stored at
key `k`, or `null` (Python `None`) when the key is absent.  Manifest objects
produced by a JSON parser have distinct keys. -/
def jget (fields : List (Str × Json)) (k : Str) : Json :=
  (fields.lookup k).getD Json.null

/-- The Python name of the type of a JSON value, used in AttributeError
messages (quotes around the names are omitted in this model). -/
def pyTypeName : Json → Str
  | .null => "NoneType".data
  | .bool _ => "bool".data
  | .num _ => "int".data
  | .str _ => "str".data
  | .arr _ => "list".data
  | .obj _ => "dict".data

/-- A Python exception value: only the two kinds this program can raise. -/
inductive PyErr where
  | attributeError (msg : Str)
  | valueError (msg : Str)
deriving DecidableEq

/-- Message text of an exception, as produced by Python `str(e)`. -/
def errMsg : PyErr → Str
  | .attributeError m => m
  | .valueError m => m

/-- The AttributeError raised by accessing a missing attribute, e.g. calling
`.strip()` on an `int`. -/
def attrErr (j : Json) (attr : Str) : PyErr :=
  .attributeError (pyTypeName j ++ " object has no attribute ".data ++ attr)

/-! ## NFC normalization model

The code calls `unicodedata.normalize("NFC", s)`.  Full Unicode NFC is
infeasible to embed; it is modelled here by `nfc`: a canonical decomposition
table followed by a single left-to-right canonical-composition pass over
adjacent pairs.  The tables carry exactly the characters exercised in this
development and the model is the identity on every other character (as real
NFC is on ASCII text).  The two table entries reflect real Unicode data:
U+0958 is a composition-excluded character that NFC decomposes to
U+0915 U+093C, and U+0065 U+0301 composes to U+00E9. -/

/-- Canonical decomposition of a single character (identity off the table). -/
def charDecomp (c : Char) : Str :=
  if c = '\u0958' then ['\u0915', '\u093C'] else [c]

/-- Canonical composition of an adjacent pair (none off the table). -/
def compLookup (a b : Char) : Option Char :=
  if a = 'e' ∧ b = '\u0301' then some '\u00E9' else none

/-- Fuel-driven body of the composition pass (the fuel makes the recursion
structural; each step consumes at least one character, so the fuel-exhausted
case is unreachable from `composePairs`). -/
def composePairsF : Nat → Str → Str
  | 0, l => l
  | _ + 1, [] => []
  | _ + 1, [a] => [a]
  | fuel + 1, a :: b :: rest =>
    match compLookup a b with
    | some c => c :: composePairsF fuel rest
    | none => a :: composePairsF fuel (b :: rest)

/-- One left-to-right composition pass over adjacent pairs. -/
def composePairs (s : Str) : Str := composePairsF s.length s

/-- Model of `unicodedata.normalize("NFC", s)`: decompose, then compose. -/
def nfc (s : Str) : Str := composePairs (s.map charDecomp).flatten

/-! ## chunk_text -/

/-- Excel cell content limit (`EXCEL_CELL_LIMIT` in the source). -/
def EXCEL_CELL_LIMIT : Nat := 32767

/-- The list comprehension `[s[i:i+size] for i in range(0, len(s), size)]`:
`range(0, len, size)` has `(len + size - 1) / size` elements and
`s[i:i+size]` is `(s.drop i).take size`.  The code only calls this with the
positive size `EXCEL_CELL_LIMIT`. -/
def chunkList (s : Str) (size : Nat) : List Str :=
  (List.range' 0 ((s.length + size - 1) / size) size).map fun i => (s.drop i).take size

/-- `chunk_text` from the source: NFC-normalize, slice into `size`-character
chunks, and turn an empty result into one empty chunk (`or [""]`). -/
def chunk_text (s : Str) (size : Nat) : List Str :=
  match chunkList (nfc s) size with
  | [] => [[]]
  | l => l

/-! ## Text decoder

`is_probably_text` decodes with `errors="replace"` and counts U+FFFD
substitution markers; `read_text_file` then decodes strictly, falling back to
latin-1.  The UTF-8 decoder below follows CPython's decoder, which emits one
U+FFFD per maximal subpart of an ill-formed subsequence. -/

/-- The U+FFFD replacement character. -/
def repl : Char := '�'

/-- Is `b` a UTF-8 continuation byte (0x80..0xBF)? -/
def isCont (b : Nat) : Bool := 0x80 ≤ b && b ≤ 0xBF

/-- Lower bound for the second byte of a multi-byte sequence led by `lead`. -/
def cont2Lo (lead : Nat) : Nat := if lead = 0xE0 then 0xA0 else if lead = 0xF0 then 0x90 else 0x80

/-- Upper bound for the second byte of a multi-byte sequence led by `lead`. -/
def cont2Hi (lead : Nat) : Nat := if lead = 0xED then 0x9F else if lead = 0xF4 then 0x8F else 0xBF

/-- Fuel-driven body of the UTF-8 decoder (the fuel makes the recursion
structural; each step consumes at least one byte, so `fuel ≥ length` in every
recursive call and the fuel-exhausted case is unreachable from `utf8Core`). -/
def utf8CoreF : Nat → List Nat → Bool × Str
  | 0, _ => (true, [])
  | _ + 1, [] => (true, [])
  | fuel + 1, b :: rest =>
    if b ≤ 0x7F then
      let r := utf8CoreF fuel rest
      (r.1, Char.ofNat b :: r.2)
    else if 0xC2 ≤ b && b ≤ 0xDF then
      match rest with
      | [] => (false, [repl])
      | b2 :: rest2 =>
        if isCont b2 then
          let r := utf8CoreF fuel rest2
          (r.1, Char.ofNat ((b - 0xC0) * 0x40 + (b2 - 0x80)) :: r.2)
        else
          let r := utf8CoreF fuel rest
          (false, repl :: r.2)
    else if 0xE0 ≤ b && b ≤ 0xEF then
      match rest with
      | [] => (false, [repl])
      | b2 :: rest2 =>
        if cont2Lo b ≤ b2 && b2 ≤ cont2Hi b then
          match rest2 with
          | [] => (false, [repl])
          | b3 :: rest3 =>
            if isCont b3 then
              let r := utf8CoreF fuel rest3
              (r.1, Char.ofNat ((b - 0xE0) * 0x1000 + (b2 - 0x80) * 0x40 + (b3 - 0x80)) :: r.2)
            else
              let r := utf8CoreF fuel rest2
              (false, repl :: r.2)
        else
          let r := utf8CoreF fuel rest
          (false, repl :: r.2)
    else if 0xF0 ≤ b && b ≤ 0xF4 then
      match rest with
      | [] => (false, [repl])
      | b2 :: rest2 =>
        if cont2Lo b ≤ b2 && b2 ≤ cont2Hi b then
          match rest2 with
          | [] => (false, [repl])
          | b3 :: rest3 =>
            if isCont b3 then
              match rest3 with
              | [] => (false, [repl])
              | b4 :: rest4 =>
                if isCont b4 then
                  let r := utf8CoreF fuel rest4
                  (r.1, Char.ofNat ((b - 0xF0) * 0x40000 + (b2 - 0x80) * 0x1000 +
                    (b3 - 0x80) * 0x40 + (b4 - 0x80)) :: r.2)
                else
                  let r := utf8CoreF fuel rest3
                  (false, repl :: r.2)
            else
              let r := utf8CoreF fuel rest2
              (false, repl :: r.2)
        else
          let r := utf8CoreF fuel rest
          (false, repl :: r.2)
    else
      let r := utf8CoreF fuel rest
      (false, repl :: r.2)

/-- Core UTF-8 decoder: returns whether the input was entirely well-formed,
together with the decoded text where every maximal ill-formed subpart has been
replaced by U+FFFD (CPython `errors="replace"` behaviour). -/
def utf8Core (raw : List Nat) : Bool × Str := utf8CoreF raw.length raw

/-- Python `raw.decode("utf-8", errors="replace")`. -/
def utf8DecodeReplace (raw : List Nat) : Str := (utf8Core raw).2

/-- Python `raw.decode("utf-8")`: succeeds exactly when the bytes are
well-formed UTF-8. -/
def utf8DecodeStrict (raw : List Nat) : Option Str :=
  if (utf8Core raw).1 then some (utf8Core raw).2 else none

/-- Python `raw.decode("latin-1", errors="replace")`: latin-1 maps every byte
to the code point of the same value and never fails. -/
def latin1Decode (raw : List Nat) : Str := raw.map Char.ofNat

/-- `is_probably_text` from the source.  The float threshold
`max(5, len(text) * 0.002)` is modelled exactly: `replacements <
max(5, len/500)` iff `replacements < 5` or `500 * replacements < len`
(the float rounding of `0.002` does not change the comparison at any
realistic length). -/
def is_probably_text (data : List Nat) : Bool :=
  if data.contains 0 then false
  else
    let text := utf8DecodeReplace data
    let r := text.count repl
    decide (r < 5) || decide (500 * r < text.length)

/-- `read_text_file` from the source, applied to the raw bytes of the file
(the byte-reading collaborator is external): raises ValueError on
binary-looking content, otherwise decodes as UTF-8 with latin-1 fallback. -/
def read_text_file (raw : List Nat) : Except PyErr Str :=
  if is_probably_text raw then
    match utf8DecodeStrict raw with
    | some t => .ok t
    | none => .ok (latin1Decode raw)
  else
    .error (.valueError "Binary or non-text file".data)

/-! ## Manifest interpreter: declared license -/

/-- Python `(value).strip()` on a JSON value: succeeds only on strings. -/
def pyStripJson (j : Json) : Except PyErr Str :=
  match j with
  | .str s => .ok (pyStrip s)
  | _ => .error (attrErr j "strip".data)

/-- The `for key in ("type", "name", "spdx", "value")` loop over a license
object: the first key whose value is a string with non-empty strip. -/
def firstStrKey (lkvs : List (Str × Json)) : List Str → Option Str
  | [] => none
  | k :: ks =>
    match jget lkvs k with
    | .str s => if pyStrip s ≠ [] then some (pyStrip s) else firstStrKey lkvs ks
    | _ => firstStrKey lkvs ks

/-- The `license`/`licence` part of `extract_license_value` (source lines
185-194): `lic = data.get("license") or data.get("licence")`, returning the
stripped string, the first usable sub-key of a license object, or nothing
(falling through to the `licenses` list). -/
def licFieldValue (kvs : List (Str × Json)) : Option Str :=
  match pyOr (jget kvs "license".data) (jget kvs "licence".data) with
  | .str s => if pyStrip s ≠ [] then some (pyStrip s) else none
  | .obj lkvs => firstStrKey lkvs ["type".data, "name".data, "spdx".data, "value".data]
  | _ => none

/-- The test `isinstance(v, str) and v.strip()` followed by `v.strip()`:
the stripped value when `v` is a string with non-empty strip. -/
def strFieldVal (v : Json) : Option Str :=
  match v with
  | .str s => if pyStrip s ≠ [] then some (pyStrip s) else none
  | _ => none

/-- One entry of the deprecated `licenses` list (source lines 199-207): a raw
string, or an object whose value is
`item.get("type") or item.get("name") or item.get("spdx") or item.get("value")`
kept only when it is a string with non-empty strip. -/
def entryVal (item : Json) : Option Str :=
  match item with
  | .str s => if pyStrip s ≠ [] then some (pyStrip s) else none
  | .obj ikvs =>
    strFieldVal (pyOr (pyOr (pyOr (jget ikvs "type".data) (jget ikvs "name".data))
      (jget ikvs "spdx".data)) (jget ikvs "value".data))
  | _ => none

/-- The `licenses` part of `extract_license_value` (source lines 196-209). -/
def licensesValue (kvs : List (Str × Json)) : Except PyErr (Option Str) :=
  match jget kvs "licenses".data with
  | .arr items =>
    if items.isEmpty then .ok none
    else
      let vals := items.filterMap entryVal
      if vals.isEmpty then .ok none else .ok (some (List.intercalate "; ".data vals))
  | _ => .ok none

/-- `extract_license_value` from the source.  `data.get` on a truthy non-dict
document raises AttributeError (the annotation `dict | None` on
`parse_manifest` is not enforced). -/
def extract_license_value (data : Json) : Except PyErr (Option Str) :=
  if !truthy data then .ok none
  else
    match data with
    | .obj kvs =>
      match licFieldValue kvs with
      | some v => .ok (some v)
      | none => licensesValue kvs
    | _ => .error (attrErr data "get".data)

/-! ## Manifest interpreter: homepage derivation -/

/-- Strip a leading `git+` prefix (`url[4:]` after `startswith("git+")`). -/
def stripGitPlus (url : Str) : Str :=
  if url.take 4 = "git+".data then url.drop 4 else url

/-- `url[:-4]` when `url.endswith(".git")`, else unchanged. -/
def stripDotGit (s : Str) : Str :=
  if s.drop (s.length - 4) = ".git".data then s.take (s.length - 4) else s

/-- Model of `urllib.parse.urlparse(url)` restricted to `.hostname` and
`.path` for `ssh://` URLs: the netloc runs to the first `/`, `?` or `#`; the
hostname is the netloc after the last `@` and before any `:` port separator,
lowercased (ASCII lowercasing; bracketed IPv6 hosts are not modelled); the
path runs from the end of the netloc to any `?` or `#`. -/
def urlparseHostPath (url : Str) : Str × Str :=
  let rest := url.drop 6
  let netloc := rest.takeWhile fun c => c != '/' && c != '?' && c != '#'
  let after := rest.drop netloc.length
  let path := after.takeWhile fun c => c != '?' && c != '#'
  let hostinfo := (netloc.reverse.takeWhile (· != '@')).reverse
  let host := (hostinfo.takeWhile (· != ':')).map Char.toLower
  (host, path)

/-- The `ssh://` rule of `derive_homepage_from_repository` (source lines
138-146): extract host and path, strip a leading slash and a trailing `.git`,
and build `https://host/path` when both are non-empty; otherwise fall
through. -/
def sshRule (url : Str) : Option Str :=
  let hp := urlparseHostPath url
  let p := stripDotGit (if hp.2.take 1 = ['/'] then hp.2.drop 1 else hp.2)
  if hp.1 ≠ [] ∧ p ≠ [] then
    some ("https://".data ++ hp.1 ++ ['/'] ++ p)
  else none

/-- The regex rule `^git@([^:]+):(.+)$` (source lines 149-155): the host is
the maximal non-empty colon-free run after `git@`, the path is the non-empty
remainder after the first colon.  (The regex `.` does not match a newline; no
URL handled here contains one.) -/
def gitAtRule (url : Str) : Option Str :=
  if url.take 4 = "git@".data then
    let rest := url.drop 4
    let host := rest.takeWhile (· != ':')
    match rest.drop host.length with
    | ':' :: path =>
      if host ≠ [] ∧ path ≠ [] then
        some ("https://".data ++ host ++ ['/'] ++ stripDotGit path)
      else none
    | _ => none
  else none

/-- `url.startswith(("http://", "https://"))`. -/
def isHttp (url : Str) : Bool :=
  url.take 7 = "http://".data || url.take 8 = "https://".data

/-- The shorthand host map `{github, gitlab, bitbucket}`. -/
def hostMap (k : Str) : Option Str :=
  if k = "github".data then some "github.com".data
  else if k = "gitlab".data then some "gitlab.com".data
  else if k = "bitbucket".data then some "bitbucket.org".data
  else none

/-- The shorthand rule (source lines 164-169): `host_key:path` with the key
mapped case-insensitively through `hostMap`. -/
def shorthandRule (url : Str) : Option Str :=
  if url.contains ':' && !isHttp url then
    let hk := url.takeWhile (· != ':')
    let path := url.drop (hk.length + 1)
    match hostMap (hk.map Char.toLower) with
    | some d => if path ≠ [] then some ("https://".data ++ d ++ ['/'] ++ path) else none
    | none => none
  else none

/-- The URL-normalization chain of `derive_homepage_from_repository` (source
lines 130-171), applied to the stripped url string: each rule either returns
or falls through to the next, and an unmatched url yields no homepage. -/
def normalize_repo_url (url0 : Str) : Option Str :=
  if url0 = [] then none
  else
    let url := stripGitPlus url0
    match (if url.take 6 = "ssh://".data then sshRule url else none) with
    | some r => some r
    | none =>
      match gitAtRule url with
      | some r => some r
      | none =>
        if isHttp url then some (stripDotGit url)
        else shorthandRule url

/-- `derive_homepage_from_repository` from the source.  A dict repository
value whose `url` field is truthy but not a string raises AttributeError at
`.strip()`; any other non-dict non-string value yields no homepage. -/
def derive_homepage_from_repository (repoVal : Json) : Except PyErr (Option Str) :=
  match repoVal with
  | .null => .ok none
  | .obj kvs =>
    let u := jget kvs "url".data
    if truthy u then
      match u with
      | .str s => .ok (normalize_repo_url (pyStrip s))
      | _ => .error (attrErr u "strip".data)
    else .ok (normalize_repo_url [])
  | .str s => .ok (normalize_repo_url (pyStrip s))
  | _ => .ok none

/-- The repository fallback inside `get_homepage`: `if derived: return
derived` (a derived value is a non-empty string whenever present). -/
def homepageFromRepo (kvs : List (Str × Json)) : Except PyErr (Option Str) := do
  let derived ← derive_homepage_from_repository (jget kvs "repository".data)
  match derived with
  | some d => if d ≠ [] then pure (some d) else pure none
  | none => pure none

/-- `get_homepage` from the source: the trimmed `homepage` field when it is a
non-empty string, otherwise the repository-derived URL.  `data.get` on a
truthy non-dict document raises AttributeError. -/
def get_homepage (data : Json) : Except PyErr (Option Str) :=
  if !truthy data then .ok none
  else
    match data with
    | .obj kvs =>
      match jget kvs "homepage".data with
      | .str s => if pyStrip s ≠ [] then .ok (some (pyStrip s)) else homepageFromRepo kvs
      | _ => homepageFromRepo kvs
    | _ => .error (attrErr data "get".data)

/-! ## Manifest interpreter: package name derivation -/

/-- Index of the last `node_modules` segment, i.e. the result of the
`for i, p in enumerate(parts): if p == "node_modules": idx = i` loop. -/
def lastNMIdx : List Str → Option Nat
  | [] => none
  | p :: rest =>
    match lastNMIdx rest with
    | some j => some (j + 1)
    | none => if p = "node_modules".data then some 0 else none

/-- `derive_package_name` from the source, on the path already split into
segments (the code normalizes with `os.path.abspath` and splits on `os.sep`;
paths are modelled as segment lists directly, and `os.path.basename` is the
final segment). -/
def derive_package_name (parts : List Str) : Str :=
  match lastNMIdx parts with
  | none => parts.getLastD []
  | some i =>
    if parts.length ≤ i + 1 then parts.getLastD []
    else
      let first := parts.getD (i + 1) []
      if first.take 1 = ['@'] ∧ i + 2 < parts.length then
        first ++ ['/'] ++ parts.getD (i + 2) []
      else first

/-! ## Row builder

`build_rows` iterates over discovered manifests.  The file-system
collaborators (`os.walk`, the byte reader) and the JSON parser are external;
each manifest is therefore modelled by what they deliver to `build_rows`:
the package directory (split into path segments), the result of
`parse_manifest` (a JSON document, or `None` when reading/parsing failed —
`parse_manifest` catches every exception), and the result of
`find_first_license` together with the raw bytes of that file.  A license
path returned by `find_first_license` is `os.path.join(dirpath, name)` for a
directory at or below the package directory, hence never equal to the package
directory itself. -/

/-- The per-manifest input to `build_rows`. -/
structure PkgInput where
  pkgDirParts : List Str
  manifest : Option Json
  license : Option (Str × List Nat)

/-- Join path segments with the POSIX separator (for the `Path` column). -/
def joinPath (parts : List Str) : Str := List.intercalate ['/'] parts

/-- The five metadata fields of a row, in column order after `Path`. -/
structure RowFields where
  homepage : Str
  pkgName : Str
  declared : Str
  pkgVersion : Str

/-- Python `(data.get(k) or "").strip()`: default a falsy field to the empty
string, then strip — which raises AttributeError when the field value is
truthy but not a string. -/
def pyFieldStrip (data : Json) (k : Str) : Except PyErr Str :=
  match data with
  | .obj kvs =>
    let v := jget kvs k
    pyStripJson (if truthy v then v else .str [])
  | _ => .error (attrErr data "get".data)

/-- The metadata extraction of one `build_rows` iteration (source lines
259-265), in evaluation order: homepage, declared license, name, version.
`data` is `Json.null` when `parse_manifest` returned `None`. -/
def build_fields (inp : PkgInput) : Except PyErr RowFields := do
  let data := inp.manifest.getD .null
  let homepage ← get_homepage data
  let declared ← extract_license_value data
  let mname ← if truthy data then pyFieldStrip data "name".data else pure []
  let pkgVersion ← if truthy data then pyFieldStrip data "version".data else pure []
  pure {
    homepage := homepage.getD []
    pkgName := if mname ≠ [] then mname else derive_package_name inp.pkgDirParts
    declared := declared.getD []
    pkgVersion := pkgVersion }

/-- One row of the output: `[Path, Homepage, Name, License, Version]`
followed by the license chunks. -/
abbrev Row := List Str

/-- The chunk written when reading the license file raised (`f"[Skipped: {e}]"`). -/
def skippedChunk (e : PyErr) : Str :=
  "[Skipped: ".data ++ errMsg e ++ [']']

/-- The license part of one `build_rows` iteration (source lines 268-278):
with a license file, decode and chunk it (a decode failure is caught and
becomes a single placeholder chunk); without one, the path is the package
directory and the license columns stay empty. -/
def rowOf (f : RowFields) (inp : PkgInput) : Row :=
  match inp.license with
  | some lr =>
    match read_text_file lr.2 with
    | .ok text =>
      lr.1 :: f.homepage :: f.pkgName :: f.declared :: f.pkgVersion ::
        chunk_text text EXCEL_CELL_LIMIT
    | .error e => [lr.1, f.homepage, f.pkgName, f.declared, f.pkgVersion, skippedChunk e]
  | none => [joinPath inp.pkgDirParts, f.homepage, f.pkgName, f.declared, f.pkgVersion]

/-- One iteration of the `build_rows` loop. -/
def build_row (inp : PkgInput) : Except PyErr Row := do
  let f ← build_fields inp
  pure (rowOf f inp)

/-- `build_rows` from the source: the `for manifest_path in manifests` loop.
An exception raised in an iteration propagates and aborts the whole call.
(The source's second parameter `node_modules_root` is unused there and is
omitted here.) -/
def build_rows : List PkgInput → Except PyErr (List Row)
  | [] => .ok []
  | inp :: rest => do
    let r ← build_row inp
    let rs ← build_rows rest
    pure (r :: rs)

/-! ## Report assembler -/

/-- The output table: column names and data rows (`pandas.DataFrame` is an
external sink; only its shape matters here). -/
structure Frame where
  columns : List Str
  rows : List (List Str)

/-- The five fixed leading column names. -/
def fixedCols : List Str :=
  ["Path".data, "Homepage".data, "Name".data, "License".data, "Version".data]

/-- `License_Chunk_{i+1}`. -/
def chunkColName (i : Nat) : Str :=
  "License_Chunk_".data ++ Nat.toDigits 10 (i + 1)

/-- `to_dataframe` from the source: the empty input emits the fixed columns
plus one chunk column and no rows; otherwise every row is padded with empty
strings to the maximal chunk count. -/
def to_dataframe (rows : List Row) : Frame :=
  if rows.isEmpty then
    { columns := fixedCols ++ ["License_Chunk_1".data], rows := [] }
  else
    let maxChunks := rows.foldl (fun acc r => Nat.max acc (r.length - 5)) 0
    { columns := fixedCols ++ (List.range maxChunks).map chunkColName
      rows := rows.map fun r =>
        [r.getD 0 [], r.getD 1 [], r.getD 2 [], r.getD 3 [], r.getD 4 []] ++
          (r.drop 5 ++ List.replicate (maxChunks - (r.length - 5)) []) }

/-! ## Specification-side definitions

These definitions are written from the words of the specification claims (not
from the source) and are compared with the source-derived functions above. -/

/-- The spec's binary-content heuristic stated on a decoded string (claim C2):
fewer than `max(5, 0.2% of length)` U+FFFD markers and no null characters.
The threshold comparison is exact rational arithmetic, as in
`is_probably_text`. -/
def passes_text_heuristic (s : Str) : Bool :=
  !s.contains (Char.ofNat 0) &&
    (decide (s.count repl < 5) || decide (500 * s.count repl < s.length))

/-- Spec rule 2 of URL normalization (claim C4), in the spec's words: extract
host and path, strip a leading slash and a trailing `.git` from the path,
produce `https://` host `/` path, and fail (yielding no homepage) when host
or path is empty after stripping. -/
def ssh_rule_spec (url : Str) : Option Str :=
  let hp := urlparseHostPath url
  let strippedPath := stripDotGit (if hp.2.take 1 = ['/'] then hp.2.drop 1 else hp.2)
  if hp.1 ≠ [] ∧ strippedPath ≠ [] then
    some ("https://".data ++ hp.1 ++ ['/'] ++ strippedPath)
  else none

/-- The amended reading of one `licenses` entry (claim C5): a raw string
contributes its non-empty strip; an object entry contributes the first
truthy value among sub-keys `type`, `name`, `spdx`, `value`, and only when
that value is a string with non-empty strip. -/
def licensesEntrySpec (item : Json) : Option Str :=
  match item with
  | .str s => if pyStrip s ≠ [] then some (pyStrip s) else none
  | .obj ikvs =>
    match ([jget ikvs "type".data, jget ikvs "name".data, jget ikvs "spdx".data,
        jget ikvs "value".data].find? truthy) with
    | some v => strFieldVal v
    | none => none
  | _ => none

/-- The path suffix strictly after the last `node_modules` segment
(claim C6), or nothing when no such segment exists. -/
def afterLastNM : List Str → Option (List Str)
  | [] => none
  | p :: rest =>
    match afterLastNM rest with
    | some r => some r
    | none => if p = "node_modules".data then some rest else none

/-- The spec's description of package-name derivation (claim C6): the segment
after the last `node_modules` segment, joining `@scope` with the following
segment; the final path component when there is no anchor segment or nothing
follows it. -/
def derive_name_spec (parts : List Str) : Str :=
  match afterLastNM parts with
  | none => parts.getLastD []
  | some [] => parts.getLastD []
  | some (seg :: rest2) =>
    if seg.take 1 = ['@'] then
      match rest2 with
      | nxt :: _ => seg ++ ['/'] ++ nxt
      | [] => seg
    else seg

/-! ## Helper lemmas: composition pass and NFC model -/

theorem composePairsF_eq : ∀ (l : Str) (f : Nat), l.length ≤ f →
    composePairsF f l = composePairsF l.length l
  | [], f, _ => by cases f <;> rfl
  | [a], f, h => by
    match f, h with
    | f + 1, _ => rfl
  | a :: b :: rest, f, h => by
    match f, h with
    | f + 1, h =>
      have hr : rest.length ≤ f := by simp [List.length_cons] at h; omega
      have hbr : (b :: rest).length ≤ f := by simp [List.length_cons] at h ⊢; omega
      simp only [composePairsF, List.length_cons]
      cases hc : compLookup a b with
      | some c =>
        simp only [hc]
        rw [composePairsF_eq rest f hr, composePairsF_eq rest (rest.length + 1) (Nat.le_succ _)]
      | none =>
        simp only [hc]
        rw [composePairsF_eq (b :: rest) f hbr]
        simp [List.length_cons]
termination_by l _ _ => l.length

theorem composePairs_cons (a b : Char) (rest : Str) :
    composePairs (a :: b :: rest) =
      match compLookup a b with
      | some c => c :: composePairs rest
      | none => a :: composePairs (b :: rest) := by
  show composePairsF (rest.length + 2) (a :: b :: rest) = _
  simp only [composePairsF]
  cases hc : compLookup a b with
  | some c =>
    simp only [hc]
    rw [composePairsF_eq rest (rest.length + 1) (Nat.le_succ _)]
    rfl
  | none => simp only [hc]; rfl

theorem composePairs_replicate_a : ∀ n : Nat,
    composePairs (List.replicate n 'a') = List.replicate n 'a'
  | 0 => rfl
  | 1 => rfl
  | n + 2 => by
    rw [show List.replicate (n + 2) 'a' = 'a' :: 'a' :: List.replicate n 'a' from rfl,
      composePairs_cons, show compLookup 'a' 'a' = none from rfl]
    show 'a' :: composePairs ('a' :: List.replicate n 'a') = 'a' :: 'a' :: List.replicate n 'a'
    rw [show ('a' :: List.replicate n 'a' : Str) = List.replicate (n + 1) 'a' from rfl,
      composePairs_replicate_a (n + 1)]

theorem flatten_replicate_a : ∀ n : Nat,
    (List.replicate n (['a'] : Str)).flatten = List.replicate n 'a'
  | 0 => rfl
  | n + 1 => by
    rw [List.replicate_succ, List.flatten_cons, flatten_replicate_a n]
    rfl

theorem nfc_replicate_a (n : Nat) : nfc (List.replicate n 'a') = List.replicate n 'a' := by
  unfold nfc
  rw [List.map_replicate, show charDecomp 'a' = ['a'] from rfl, flatten_replicate_a,
    composePairs_replicate_a]

theorem nfc_e_mark_replicate_a (n : Nat) :
    nfc ('e' :: '́' :: List.replicate n 'a') = 'é' :: List.replicate n 'a' := by
  unfold nfc
  rw [List.map_cons, List.map_cons, List.map_replicate,
    show charDecomp 'e' = ['e'] from rfl, show charDecomp '́' = ['́'] from rfl,
    show charDecomp 'a' = ['a'] from rfl,
    List.flatten_cons, List.flatten_cons, flatten_replicate_a]
  show composePairs ('e' :: '́' :: List.replicate n 'a') = 'é' :: List.replicate n 'a'
  rw [composePairs_cons, show compLookup 'e' '́' = some 'é' from rfl]
  show 'é' :: composePairs (List.replicate n 'a') = 'é' :: List.replicate n 'a'
  rw [composePairs_replicate_a]

/-! ## Helper lemmas: chunkList -/

theorem chunkList_nil (n : Nat) : chunkList [] n = [] := by
  unfold chunkList
  cases n with
  | zero => rfl
  | succ n =>
    rw [show (List.length [] + (n + 1) - 1) / (n + 1) = 0 from
      Nat.div_eq_of_lt (by simp)]
    rfl

theorem chunk_shift (s : Str) (n : Nat) : ∀ (k a : Nat),
    (List.range' (a + n) k n).map (fun i => (s.drop i).take n) =
      (List.range' a k n).map fun i => ((s.drop n).drop i).take n
  | 0, _ => rfl
  | k + 1, a => by
    rw [List.range'_succ, List.range'_succ]
    simp only [List.map_cons]
    congr 1
    · rw [List.drop_drop, Nat.add_comm n a]
    · exact chunk_shift s n k (a + n)

theorem chunkList_cons (s : Str) (n : Nat) (hs : s ≠ []) (hn : 0 < n) :
    chunkList s n = s.take n :: chunkList (s.drop n) n := by
  have hlen : 0 < s.length := List.length_pos.mpr hs
  unfold chunkList
  rw [show s.length + n - 1 = (s.length - 1) + n by omega, Nat.add_div_right _ hn]
  have hq : (s.length - 1) / n = ((s.drop n).length + n - 1) / n := by
    rw [List.length_drop]
    by_cases hc : s.length ≤ n
    · rw [show s.length - n = 0 by omega,
        Nat.div_eq_of_lt (show s.length - 1 < n by omega),
        Nat.div_eq_of_lt (show 0 + n - 1 < n by omega)]
    · rw [show s.length - 1 = (s.length - n - 1) + n by omega,
        show s.length - n + n - 1 = (s.length - n - 1) + n by omega,
        Nat.add_div_right _ hn]
  rw [List.range'_succ]
  simp only [List.map_cons, List.drop_zero, Nat.zero_add]
  congr 1
  have h := chunk_shift s n ((s.length - 1) / n) 0
  rw [Nat.zero_add] at h
  rw [h]
  show _ = chunkList (s.drop n) n
  unfold chunkList
  rw [← hq]

theorem chunkList_singleton (s : Str) (n : Nat) (hs : s ≠ []) (hn : 0 < n)
    (hle : s.length ≤ n) : chunkList s n = [s] := by
  rw [chunkList_cons s n hs hn, List.drop_eq_nil_of_le hle, chunkList_nil,
    List.take_of_length_le hle]

theorem chunkList_flatten (n : Nat) (hn : 0 < n) : ∀ s : Str, (chunkList s n).flatten = s := by
  have H : ∀ (m : Nat) (s : Str), s.length = m → (chunkList s n).flatten = s := by
    intro m
    induction m using Nat.strongRecOn with
    | ind m ih =>
      intro s hm
      by_cases hs : s = []
      · subst hs; rw [chunkList_nil]; rfl
      · rw [chunkList_cons s n hs hn, List.flatten_cons,
          ih (s.drop n).length (by
            rw [List.length_drop]
            have : 0 < s.length := List.length_pos.mpr hs
            omega) (s.drop n) rfl]
        exact List.take_append_drop n s
  exact fun s => H s.length s rfl

theorem chunkList_eq_nil_iff (s : Str) (n : Nat) (hn : 0 < n) :
    chunkList s n = [] ↔ s = [] := by
  constructor
  · intro h
    by_contra hs
    rw [chunkList_cons s n hs hn] at h
    exact List.cons_ne_nil _ _ h
  · intro h; subst h; exact chunkList_nil n

theorem getLastD_of_ne_nil {α : Type} (l : List α) (d1 d2 : α) (h : l ≠ []) :
    l.getLastD d1 = l.getLastD d2 := by
  cases l with
  | nil => exact absurd rfl h
  | cons a t => rw [List.getLastD_cons, List.getLastD_cons]

theorem chunkList_dropLast (n : Nat) (hn : 0 < n) :
    ∀ s : Str, ∀ c ∈ (chunkList s n).dropLast, c.length = n := by
  have H : ∀ (m : Nat) (s : Str), s.length = m →
      ∀ c ∈ (chunkList s n).dropLast, c.length = n := by
    intro m
    induction m using Nat.strongRecOn with
    | ind m ih =>
      intro s hm c hc
      by_cases hs : s = []
      · subst hs; rw [chunkList_nil] at hc; simp at hc
      · rw [chunkList_cons s n hs hn] at hc
        by_cases hd : s.drop n = []
        · rw [hd, chunkList_nil] at hc
          simp [List.dropLast] at hc
        · have hne : chunkList (s.drop n) n ≠ [] := by
            rw [Ne, chunkList_eq_nil_iff (s.drop n) n hn]; exact hd
          rw [List.dropLast_cons_of_ne_nil hne] at hc
          rcases List.mem_cons.mp hc with h | h
          · subst h
            have hlt : n < s.length := by
              by_contra hle
              exact hd (List.drop_eq_nil_of_le (by omega))
            rw [List.length_take]
            omega
          · exact ih (s.drop n).length (by
              rw [List.length_drop]
              have : 0 < s.length := List.length_pos.mpr hs
              omega) (s.drop n) rfl c h
  exact fun s => H s.length s rfl

theorem chunkList_last (n : Nat) (hn : 0 < n) :
    ∀ s : Str, s ≠ [] →
      0 < ((chunkList s n).getLastD []).length ∧ ((chunkList s n).getLastD []).length ≤ n := by
  have H : ∀ (m : Nat) (s : Str), s.length = m → s ≠ [] →
      0 < ((chunkList s n).getLastD []).length ∧ ((chunkList s n).getLastD []).length ≤ n := by
    intro m
    induction m using Nat.strongRecOn with
    | ind m ih =>
      intro s hm hs
      by_cases hd : s.drop n = []
      · rw [chunkList_singleton s n hs hn (List.drop_eq_nil_iff.mp hd)]
        have h0 : 0 < s.length := List.length_pos.mpr hs
        have h1 : s.length ≤ n := List.drop_eq_nil_iff.mp hd
        constructor
        · simpa [List.getLastD_cons] using h0
        · simpa [List.getLastD_cons] using h1
      · rw [chunkList_cons s n hs hn, List.getLastD_cons,
          getLastD_of_ne_nil _ _ [] (by
            rw [Ne, chunkList_eq_nil_iff (s.drop n) n hn]; exact hd)]
        exact ih (s.drop n).length (by
          rw [List.length_drop]
          have h0 : 0 < s.length := List.length_pos.mpr hs
          omega) (s.drop n) rfl hd
  exact fun s => H s.length s rfl

theorem chunk_text_ne_nil (s : Str) (n : Nat) : chunk_text s n ≠ [] := by
  unfold chunk_text
  cases h : chunkList (nfc s) n <;> simp

theorem chunk_text_of_ne_nil (s : Str) (n : Nat) (hn : 0 < n) (h : nfc s ≠ []) :
    chunk_text s n = chunkList (nfc s) n := by
  unfold chunk_text
  cases hb : chunkList (nfc s) n with
  | nil => exact absurd ((chunkList_eq_nil_iff (nfc s) n hn).mp hb) h
  | cons a t => rfl

theorem chunk_text_of_nil (s : Str) (n : Nat) (h : nfc s = []) :
    chunk_text s n = [[]] := by
  unfold chunk_text
  rw [h, chunkList_nil]

/-! ## Claim C9 -/

/-- Claim C9: for every input string and positive chunk size, concatenating in
order the chunks returned by `chunk_text` yields the NFC normalization of the
input, every chunk except possibly the last has length exactly the chunk
size, and the last chunk has length at most the chunk size and at least one
unless the normalized string is empty. -/
theorem c9_chunk_shape (s : Str) (n : Nat) (hn : 0 < n) :
    (chunk_text s n).flatten = nfc s ∧
    (∀ c ∈ (chunk_text s n).dropLast, c.length = n) ∧
    ((chunk_text s n).getLastD []).length ≤ n ∧
    (nfc s ≠ [] → 0 < ((chunk_text s n).getLastD []).length) := by
  by_cases h : nfc s = []
  · rw [chunk_text_of_nil s n h]
    exact ⟨by simp [h], by simp, by simp, fun hc => absurd h hc⟩
  · rw [chunk_text_of_ne_nil s n hn h]
    exact ⟨chunkList_flatten n hn (nfc s), chunkList_dropLast n hn (nfc s),
      (chunkList_last n hn (nfc s) h).2, fun _ => (chunkList_last n hn (nfc s) h).1⟩

/-- Witness for C9 at the three-character string `abc` with chunk size 2. -/
theorem c9_chunk_shape_witness :
    0 < 2 ∧
    ((chunk_text "abc".data 2).flatten = nfc "abc".data ∧
     (∀ c ∈ (chunk_text "abc".data 2).dropLast, c.length = 2) ∧
     ((chunk_text "abc".data 2).getLastD []).length ≤ 2 ∧
     (nfc "abc".data ≠ [] → 0 < ((chunk_text "abc".data 2).getLastD []).length)) :=
  ⟨by decide, c9_chunk_shape "abc".data 2 (by decide)⟩

/-! ## Claim C2 -/

/-- Claim C2 as stated is false: the two-character string `e` followed by
U+0301 passes the binary-content heuristic, yet chunking first NFC-normalizes
and composes it to the single character U+00E9, so concatenating the chunks
does not reproduce the original input. -/
theorem c2_roundtrip_counterexample :
    passes_text_heuristic ['e', '́'] = true ∧
    (chunk_text ['e', '́'] 32767).flatten = ['é'] ∧
    (['é'] : Str) ≠ ['e', '́'] :=
  ⟨by decide, by decide, by decide⟩

/-- Claim C2 (amended): for every license text string that passes the
binary-content heuristic, concatenating in order the chunks produced by
`chunk_text` with chunk size 32767 reproduces the NFC normalization of the
input — and hence the input itself exactly when the input is already
NFC-normalized. -/
theorem c2_roundtrip_nfc (s : Str) (_h : passes_text_heuristic s = true) :
    (chunk_text s 32767).flatten = nfc s ∧
    (nfc s = s → (chunk_text s 32767).flatten = s) := by
  have hj : (chunk_text s 32767).flatten = nfc s := by
    by_cases he : nfc s = []
    · rw [chunk_text_of_nil s 32767 he]; simp [he]
    · rw [chunk_text_of_ne_nil s 32767 (by omega) he]
      exact chunkList_flatten 32767 (by omega) (nfc s)
  exact ⟨hj, fun he => by rw [hj, he]⟩

/-- Witness for the amended C2 at the string `MIT`. -/
theorem c2_roundtrip_nfc_witness :
    passes_text_heuristic "MIT".data = true ∧
    ((chunk_text "MIT".data 32767).flatten = nfc "MIT".data ∧
     (nfc "MIT".data = "MIT".data → (chunk_text "MIT".data 32767).flatten = "MIT".data)) :=
  ⟨by decide, c2_roundtrip_nfc "MIT".data (by decide)⟩

/-! ## Claim C7 -/

/-- Claim C7 as stated is false: a 32768-character input whose first two
characters compose under NFC yields one chunk, not two. -/
theorem c7_boundary_counterexample :
    ('e' :: '́' :: List.replicate 32766 'a' : Str).length = 32768 ∧
    (chunk_text ('e' :: '́' :: List.replicate 32766 'a') 32767).length = 1 := by
  constructor
  · rw [List.length_cons, List.length_cons, List.length_replicate]
  · have hnfc := nfc_e_mark_replicate_a 32766
    have hlen : ('é' :: List.replicate 32766 'a' : Str).length = 32767 := by
      rw [List.length_cons, List.length_replicate]
    have hne : ('é' :: List.replicate 32766 'a' : Str) ≠ [] := List.cons_ne_nil _ _
    rw [chunk_text_of_ne_nil _ _ (by omega) (by rw [hnfc]; exact hne), hnfc,
      chunkList_singleton _ _ hne (by omega) (le_of_eq hlen)]
    rfl

/-- Claim C7 (amended): chunking at size 32767 produces exactly one chunk when
the NFC normalization of the input has length 32767 and exactly two chunks —
the second containing exactly one character — when the normalization has
length 32768; an empty input produces exactly one chunk, the empty string. -/
theorem c7_boundary_nfc (s : Str) :
    ((nfc s).length = 32767 → (chunk_text s 32767).length = 1) ∧
    ((nfc s).length = 32768 →
      (chunk_text s 32767).length = 2 ∧ ((chunk_text s 32767).getLastD []).length = 1) ∧
    (s = [] → chunk_text s 32767 = [[]]) := by
  refine ⟨?_, ?_, ?_⟩
  · intro h
    have hne : nfc s ≠ [] := by intro hc; rw [hc] at h; simp at h
    rw [chunk_text_of_ne_nil s 32767 (by omega) hne,
      chunkList_singleton (nfc s) 32767 hne (by omega) (le_of_eq h)]
    rfl
  · intro h
    have hne : nfc s ≠ [] := by intro hc; rw [hc] at h; simp at h
    have hd : ((nfc s).drop 32767).length = 1 := by rw [List.length_drop, h]
    have hdne : (nfc s).drop 32767 ≠ [] := by
      intro hc; rw [hc] at hd; simp at hd
    rw [chunk_text_of_ne_nil s 32767 (by omega) hne,
      chunkList_cons (nfc s) 32767 hne (by omega),
      chunkList_singleton _ 32767 hdne (by omega) (by omega)]
    constructor
    · rfl
    · rw [List.getLastD_cons, List.getLastD_cons, List.getLastD_nil]
      exact hd
  · intro h
    exact chunk_text_of_nil s 32767 (by rw [h]; rfl)

/-- Witness for the amended C7 at a 32767-character ASCII input. -/
theorem c7_boundary_nfc_witness :
    (nfc (List.replicate 32767 'a')).length = 32767 ∧
    (chunk_text (List.replicate 32767 'a') 32767).length = 1 := by
  have h : (nfc (List.replicate 32767 'a')).length = 32767 := by
    rw [nfc_replicate_a, List.length_replicate]
  exact ⟨h, (c7_boundary_nfc (List.replicate 32767 'a')).1 h⟩

/-! ## Claim C8 -/

/-- Claim C8: on an empty sequence of rows the report assembler produces a
table whose columns are exactly Path, Homepage, Name, License and Version
followed by exactly one chunk column, and which contains zero data rows. -/
theorem c8_empty_frame :
    to_dataframe [] = { columns := ["Path".data, "Homepage".data, "Name".data,
      "License".data, "Version".data, "License_Chunk_1".data], rows := [] } := rfl

/-! ## Claim C10 -/

/-- Claim C10: for every byte sequence that is valid UTF-8, contains no null
byte, and whose decoded text itself contains at least `max(5, 0.2% of its
length)` literal U+FFFD replacement characters, `is_probably_text` classifies
the bytes as binary and `read_text_file` fails with a Binary or non-text file
error, even though the bytes decode without error. -/
theorem c10_literal_replacements_rejected (raw : List Nat) (t : Str)
    (hvalid : utf8DecodeStrict raw = some t)
    (hnull : raw.contains 0 = false)
    (hcount : 5 ≤ t.count repl)
    (hdens : t.length ≤ 500 * t.count repl) :
    is_probably_text raw = false ∧
    read_text_file raw = .error (.valueError "Binary or non-text file".data) := by
  have hrep : utf8DecodeReplace raw = t := by
    unfold utf8DecodeStrict at hvalid
    by_cases hb : (utf8Core raw).1
    · rw [if_pos hb] at hvalid
      exact Option.some.inj hvalid
    · rw [if_neg hb] at hvalid
      exact absurd hvalid (by simp)
  have hipt : is_probably_text raw = false := by
    unfold is_probably_text
    rw [hnull]
    simp only [Bool.false_eq_true, if_false, hrep]
    rw [show decide (t.count repl < 5) = false by simp [Nat.not_lt.mpr hcount],
      show decide (500 * t.count repl < t.length) = false by simp [Nat.not_lt.mpr hdens]]
    decide
  refine ⟨hipt, ?_⟩
  unfold read_text_file
  rw [hipt]
  rfl

/-- Witness for C10: five copies of the UTF-8 encoding EF BF BD of a literal
U+FFFD character. -/
theorem c10_literal_replacements_rejected_witness :
    utf8DecodeStrict [0xEF, 0xBF, 0xBD, 0xEF, 0xBF, 0xBD, 0xEF, 0xBF, 0xBD,
        0xEF, 0xBF, 0xBD, 0xEF, 0xBF, 0xBD] = some (List.replicate 5 repl) ∧
    ([0xEF, 0xBF, 0xBD, 0xEF, 0xBF, 0xBD, 0xEF, 0xBF, 0xBD,
        0xEF, 0xBF, 0xBD, 0xEF, 0xBF, 0xBD] : List Nat).contains 0 = false ∧
    5 ≤ (List.replicate 5 repl).count repl ∧
    (List.replicate 5 repl).length ≤ 500 * (List.replicate 5 repl).count repl ∧
    (is_probably_text [0xEF, 0xBF, 0xBD, 0xEF, 0xBF, 0xBD, 0xEF, 0xBF, 0xBD,
        0xEF, 0xBF, 0xBD, 0xEF, 0xBF, 0xBD] = false ∧
     read_text_file [0xEF, 0xBF, 0xBD, 0xEF, 0xBF, 0xBD, 0xEF, 0xBF, 0xBD,
        0xEF, 0xBF, 0xBD, 0xEF, 0xBF, 0xBD] =
       .error (.valueError "Binary or non-text file".data)) :=
  ⟨by decide, by decide, by decide, by decide,
    c10_literal_replacements_rejected _ (List.replicate 5 repl)
      (by decide) (by decide) (by decide) (by decide)⟩

/-! ## Claim C6 -/

theorem afterLastNM_eq (parts : List Str) :
    afterLastNM parts = (lastNMIdx parts).map fun i => parts.drop (i + 1) := by
  induction parts with
  | nil => rfl
  | cons p rest ih =>
    rw [show afterLastNM (p :: rest) =
      (match afterLastNM rest with
        | some r => some r
        | none => if p = "node_modules".data then some rest else none) from rfl]
    rw [show lastNMIdx (p :: rest) =
      (match lastNMIdx rest with
        | some j => some (j + 1)
        | none => if p = "node_modules".data then some 0 else none) from rfl]
    rw [ih]
    cases h : lastNMIdx rest with
    | some j =>
      simp only [Option.map_some', List.drop_succ_cons]
    | none =>
      simp only [Option.map_none']
      by_cases hp : p = "node_modules".data
      · rw [if_pos hp, if_pos hp, Option.map_some', List.drop_succ_cons, List.drop_zero]
      · rw [if_neg hp, if_neg hp]
        rfl

/-- Claim C6: when the manifest provides no usable name, the derived name is
the path segment after the last `node_modules` segment, with `@scope` joined
to the following segment, falling back to the final path component — i.e.
`derive_package_name` agrees with the spec-side `derive_name_spec` on every
segment list; in particular `node_modules/@scope/pkg` derives `@scope/pkg`. -/
theorem c6_derive_name (parts : List Str) :
    derive_package_name parts = derive_name_spec parts ∧
    derive_package_name ["home".data, "node_modules".data, "@scope".data, "pkg".data] =
      "@scope/pkg".data := by
  refine ⟨?_, by decide⟩
  unfold derive_name_spec derive_package_name
  rw [afterLastNM_eq]
  cases h : lastNMIdx parts with
  | none => rfl
  | some i =>
    rw [Option.map_some']
    dsimp only
    cases hd : parts.drop (i + 1) with
    | nil =>
      have hge : parts.length ≤ i + 1 := List.drop_eq_nil_iff.mp hd
      rw [if_pos hge]
    | cons seg rest2 =>
      dsimp only
      have hlt : i + 1 < parts.length := by
        by_contra hc
        rw [List.drop_eq_nil_of_le (by omega)] at hd
        exact List.noConfusion hd
      rw [if_neg (by omega)]
      have hfirst : parts.getD (i + 1) [] = seg := by
        have h1 : (parts.drop (i + 1)).head? = some seg := by rw [hd]; rfl
        rw [List.head?_drop] at h1
        rw [List.getD_eq_getElem?_getD, h1]
        rfl
      rw [hfirst]
      by_cases hat : seg.take 1 = ['@']
      · cases rest2 with
        | nil =>
          have hlen2 : parts.length = i + 2 := by
            have hld := congrArg List.length hd
            rw [List.length_drop] at hld
            simp only [List.length_cons, List.length_nil] at hld
            omega
          rw [if_neg (fun hc => by omega), if_pos hat]
        | cons nxt rest3 =>
          have hlen2 : i + 2 < parts.length := by
            have hld := congrArg List.length hd
            rw [List.length_drop] at hld
            simp only [List.length_cons] at hld
            omega
          rw [if_pos ⟨hat, hlen2⟩, if_pos hat]
          have h2 : parts.getD (i + 2) [] = nxt := by
            have h1 := congrArg (fun l => (List.drop 1 l).head?) hd
            simp only [List.drop_drop] at h1
            rw [List.head?_drop] at h1
            have h3 : parts[i + 1 + 1]? = some nxt := by rw [h1]; rfl
            rw [List.getD_eq_getElem?_getD, show i + 2 = i + 1 + 1 by omega, h3]
            rfl
          rw [h2]
      · rw [if_neg (fun hc => hat hc.1), if_neg hat]

/-- Witness for C6 at a nested-`node_modules` path. -/
theorem c6_derive_name_witness :
    derive_package_name ["a".data, "node_modules".data, "p".data, "node_modules".data,
        "q".data] =
      derive_name_spec ["a".data, "node_modules".data, "p".data, "node_modules".data,
        "q".data] ∧
    derive_package_name ["home".data, "node_modules".data, "@scope".data, "pkg".data] =
      "@scope/pkg".data :=
  c6_derive_name ["a".data, "node_modules".data, "p".data, "node_modules".data, "q".data]

/-! ## Claim C4 -/

theorem take_six_eq {α : Type} (l : List α) (a b c d e f : α)
    (h : l.take 6 = [a, b, c, d, e, f]) :
    l = a :: b :: c :: d :: e :: f :: l.drop 6 := by
  conv_lhs => rw [← List.take_append_drop 6 l, h]
  rfl

/-- On a url whose `git+`-stripped form has scheme `ssh://`, the whole
normalization chain reduces to the ssh rule: when its host-and-path guard
fails, the later rules cannot match either (the leading `ssh` is not `git@`,
not `http(s)://`, and not a recognized shorthand host key). -/
theorem normalize_ssh (u : Str) (h : (stripGitPlus u).take 6 = "ssh://".data)
    (hne : u ≠ []) :
    normalize_repo_url u = sshRule (stripGitPlus u) := by
  unfold normalize_repo_url
  rw [if_neg hne]
  show (match (if (stripGitPlus u).take 6 = "ssh://".data
      then sshRule (stripGitPlus u) else none) with
    | some r => some r
    | none =>
      match gitAtRule (stripGitPlus u) with
      | some r => some r
      | none =>
        if isHttp (stripGitPlus u) then some (stripDotGit (stripGitPlus u))
        else shorthandRule (stripGitPlus u)) = sshRule (stripGitPlus u)
  rw [if_pos h]
  cases hs : sshRule (stripGitPlus u) with
  | some r => rfl
  | none =>
    obtain ⟨t, ht⟩ : ∃ t, stripGitPlus u = 's' :: 's' :: 'h' :: ':' :: '/' :: '/' :: t :=
      ⟨(stripGitPlus u).drop 6, take_six_eq _ _ _ _ _ _ _ h⟩
    rw [ht]
    rfl

/-- Claim C4: for every repository url whose `git+`-stripped form has scheme
`ssh://`, homepage derivation — whether the repository value is the raw url
string or an object carrying it in `url` — returns (without ever raising) the
result of the spec's ssh rule: host and path are extracted, a leading slash
and a trailing `.git` are stripped from the path, and `https://host/path` is
produced, or no homepage at all when host or path is empty after stripping. -/
theorem c4_ssh_homepage (u : Str)
    (h : (stripGitPlus (pyStrip u)).take 6 = "ssh://".data) :
    derive_homepage_from_repository (.str u) =
      .ok (ssh_rule_spec (stripGitPlus (pyStrip u))) ∧
    derive_homepage_from_repository (.obj [("url".data, .str u)]) =
      .ok (ssh_rule_spec (stripGitPlus (pyStrip u))) := by
  cases u with
  | nil => exact absurd h (by decide)
  | cons a t =>
    have hne : pyStrip (a :: t) ≠ [] := by
      intro hc
      rw [hc] at h
      exact absurd h (by decide)
    have hmain : normalize_repo_url (pyStrip (a :: t)) =
        ssh_rule_spec (stripGitPlus (pyStrip (a :: t))) :=
      normalize_ssh _ h hne
    exact ⟨congrArg Except.ok hmain, congrArg Except.ok hmain⟩

/-- Witness for C4 at the spec's scenario url. -/
theorem c4_ssh_homepage_witness :
    (stripGitPlus (pyStrip "git+ssh://git@github.com/foo/bar.git".data)).take 6 =
      "ssh://".data ∧
    derive_homepage_from_repository
        (.obj [("url".data, .str "git+ssh://git@github.com/foo/bar.git".data)]) =
      .ok (some "https://github.com/foo/bar".data) := by
  refine ⟨by decide, ?_⟩
  rw [(c4_ssh_homepage "git+ssh://git@github.com/foo/bar.git".data (by decide)).2]
  exact congrArg Except.ok (by decide)

/-! ## Claim C5 -/

theorem strFieldVal_falsy (v : Json) (h : truthy v = false) : strFieldVal v = none := by
  cases v with
  | str s =>
    cases s with
    | nil => rfl
    | cons a t => exact absurd h (by simp [truthy])
  | null => rfl
  | bool b => rfl
  | num n => rfl
  | arr l => rfl
  | obj l => rfl

theorem entryVal_eq_spec (item : Json) : entryVal item = licensesEntrySpec item := by
  cases item with
  | null => rfl
  | bool b => rfl
  | num n => rfl
  | arr l => rfl
  | str s => rfl
  | obj ikvs =>
    show strFieldVal (pyOr (pyOr (pyOr (jget ikvs "type".data) (jget ikvs "name".data))
        (jget ikvs "spdx".data)) (jget ikvs "value".data)) =
      (match [jget ikvs "type".data, jget ikvs "name".data, jget ikvs "spdx".data,
          jget ikvs "value".data].find? truthy with
        | some v => strFieldVal v
        | none => none)
    generalize jget ikvs "type".data = tv
    generalize jget ikvs "name".data = nv
    generalize jget ikvs "spdx".data = sv
    generalize jget ikvs "value".data = vv
    cases ht : truthy tv with
    | true => simp [pyOr, ht, List.find?]
    | false =>
      cases hn : truthy nv with
      | true => simp [pyOr, ht, hn, List.find?]
      | false =>
        cases hs : truthy sv with
        | true => simp [pyOr, ht, hn, hs, List.find?]
        | false =>
          cases hv : truthy vv with
          | true => simp [pyOr, ht, hn, hs, hv, List.find?]
          | false =>
            simp [pyOr, ht, hn, hs, hv, List.find?, strFieldVal_falsy vv hv]

/-- Claim C5 as stated is false: with no `license` field and
`licenses = [{"type": 5, "name": "MIT"}]`, reading the entry the same way as
an object `license` field (sub-key loop `firstStrKey`, second conjunct) yields
`MIT`, but `extract_license_value` takes the first truthy sub-key value `5`,
rejects it for not being a string, drops the whole entry, and declares no
license at all. -/
theorem c5_object_entry_counterexample :
    extract_license_value (.obj [("licenses".data,
      .arr [.obj [("type".data, .num 5), ("name".data, .str "MIT".data)]])]) = .ok none ∧
    firstStrKey [("type".data, .num 5), ("name".data, .str "MIT".data)]
      ["type".data, "name".data, "spdx".data, "value".data] = some "MIT".data :=
  ⟨rfl, rfl⟩

/-- Claim C5 (amended): when the `license`/`licence` fields yield no value and
`licenses` is a non-empty list, the declared license joins with `; ` the
values of the entries, where a string entry contributes its non-empty strip
and an object entry contributes the first truthy value among sub-keys `type`,
`name`, `spdx`, `value` only when that value is a string with non-empty
strip; no value at all is declared when every entry is dropped. -/
theorem c5_licenses_join (kvs : List (Str × Json)) (items : List Json)
    (hlic : licFieldValue kvs = none)
    (hls : jget kvs "licenses".data = .arr items)
    (hne : items ≠ []) :
    extract_license_value (.obj kvs) =
      .ok (match items.filterMap licensesEntrySpec with
        | [] => none
        | vs => some (List.intercalate "; ".data vs)) := by
  have hkvs : kvs ≠ [] := by
    intro hc
    subst hc
    rw [show jget [] "licenses".data = Json.null from rfl] at hls
    exact Json.noConfusion hls
  unfold extract_license_value
  rw [show truthy (.obj kvs) = !kvs.isEmpty from rfl]
  rw [show kvs.isEmpty = false from by
    cases kvs with
    | nil => exact absurd rfl hkvs
    | cons a t => rfl]
  show (match licFieldValue kvs with
    | some v => Except.ok (some v)
    | none => licensesValue kvs) = _
  rw [hlic]
  show licensesValue kvs = _
  unfold licensesValue
  rw [hls]
  dsimp only
  rw [show items.isEmpty = false from by
    cases items with
    | nil => exact absurd rfl hne
    | cons a t => rfl]
  show (if (items.filterMap entryVal).isEmpty then Except.ok none
    else .ok (some (List.intercalate "; ".data (items.filterMap entryVal)))) = _
  rw [show entryVal = licensesEntrySpec from funext entryVal_eq_spec]
  cases hfm : items.filterMap licensesEntrySpec with
  | nil => rfl
  | cons v vs => rfl

/-- Witness for the amended C5 at the spec's scenario
`[{"type":"MIT"},{"type":"Apache-2.0"}]`. -/
theorem c5_licenses_join_witness :
    licFieldValue [("licenses".data, .arr [.obj [("type".data, .str "MIT".data)],
        .obj [("type".data, .str "Apache-2.0".data)]])] = none ∧
    jget [("licenses".data, .arr [.obj [("type".data, .str "MIT".data)],
        .obj [("type".data, .str "Apache-2.0".data)]])] "licenses".data =
      .arr [.obj [("type".data, .str "MIT".data)],
        .obj [("type".data, .str "Apache-2.0".data)]] ∧
    ([.obj [("type".data, .str "MIT".data)],
        .obj [("type".data, .str "Apache-2.0".data)]] : List Json) ≠ [] ∧
    extract_license_value (.obj [("licenses".data,
        .arr [.obj [("type".data, .str "MIT".data)],
          .obj [("type".data, .str "Apache-2.0".data)]])]) =
      .ok (some "MIT; Apache-2.0".data) := by
  refine ⟨rfl, rfl, List.cons_ne_nil _ _, ?_⟩
  rw [c5_licenses_join
    [("licenses".data, .arr [.obj [("type".data, .str "MIT".data)],
      .obj [("type".data, .str "Apache-2.0".data)]])]
    [.obj [("type".data, .str "MIT".data)], .obj [("type".data, .str "Apache-2.0".data)]]
    rfl rfl (List.cons_ne_nil _ _)]
  rfl

/-! ## Claim C1 -/

/-- A manifest input whose JSON document is the object with `name` bound to
the number 42 and no license file. -/
def intNameInput : PkgInput :=
  { pkgDirParts := ["pkg".data]
    manifest := some (.obj [("name".data, .num 42)])
    license := none }

/-- Claim C1 fails on the code: for a manifest whose JSON document has the
truthy non-string `name` value 42, `build_rows` raises AttributeError from
the `.strip()` call instead of downgrading the error, so the whole call
aborts and no row at all is produced for the manifest. -/
theorem c1_nonstring_name_raises :
    build_rows [intNameInput] =
      .error (.attributeError "int object has no attribute strip".data) := rfl

/-! ## Claim C3 -/

theorem build_rows_cons (inp : PkgInput) (rest : List PkgInput) :
    build_rows (inp :: rest) =
      (build_row inp).bind fun r => (build_rows rest).bind fun rs => .ok (r :: rs) := rfl

theorem build_row_eq (inp : PkgInput) :
    build_row inp = (build_fields inp).bind fun f => .ok (rowOf f inp) := rfl

/-- A package whose located license file holds a single null byte (and is
therefore rejected by the text decoder). -/
def binaryLicenseInput : PkgInput :=
  { pkgDirParts := ["pkg".data]
    manifest := none
    license := some ("pkg/LICENSE".data, [0]) }

/-- Claim C3 as stated is false: a located license file whose bytes are a
single null byte is not readable (`read_text_file` rejects it), so no
readable license file was found for the package — yet the produced row
carries one placeholder chunk rather than an empty chunk sequence, and its
path is the license file path rather than the package directory. -/
theorem c3_skipped_chunk_counterexample :
    read_text_file [0] = .error (.valueError "Binary or non-text file".data) ∧
    build_rows [binaryLicenseInput] =
      .ok [["pkg/LICENSE".data, [], "pkg".data, [], [],
        "[Skipped: Binary or non-text file]".data]] ∧
    (["pkg/LICENSE".data, [], "pkg".data, [], [],
        "[Skipped: Binary or non-text file]".data] : Row).drop 5 ≠ [] ∧
    (["pkg/LICENSE".data, [], "pkg".data, [], [],
        "[Skipped: Binary or non-text file]".data] : Row).headD [] ≠
      joinPath ["pkg".data] :=
  ⟨rfl, rfl, by decide, by decide⟩

/-- The per-row shape facts behind claim C3. -/
theorem row_props (inp : PkgInput) (r : Row)
    (hr : build_row inp = .ok r)
    (hp : (match inp.license with
      | some lr => lr.1 != joinPath inp.pkgDirParts
      | none => true) = true) :
    ((r.drop 5 = []) ↔ inp.license = none) ∧
    ((r.headD [] = joinPath inp.pkgDirParts) ↔ inp.license = none) := by
  cases hf : build_fields inp with
  | error e =>
    rw [build_row_eq, hf] at hr
    exact absurd hr (by simp [Except.bind])
  | ok f =>
    rw [build_row_eq, hf] at hr
    have hrow : r = rowOf f inp := by
      simp only [Except.bind] at hr
      exact (Except.ok.inj hr).symm
    subst hrow
    unfold rowOf
    cases hl : inp.license with
    | none => exact ⟨by simp, by simp⟩
    | some lr =>
      rw [hl] at hp
      have hne : lr.1 ≠ joinPath inp.pkgDirParts := by simpa using hp
      dsimp only
      cases hrd : read_text_file lr.2 with
      | ok text =>
        dsimp only
        constructor
        · refine iff_of_false (fun hc => ?_) (fun hc => Option.noConfusion hc)
          rw [show (lr.1 :: f.homepage :: f.pkgName :: f.declared :: f.pkgVersion ::
            chunk_text text EXCEL_CELL_LIMIT).drop 5 =
              chunk_text text EXCEL_CELL_LIMIT from rfl] at hc
          exact chunk_text_ne_nil text EXCEL_CELL_LIMIT hc
        · exact iff_of_false (fun hc => hne hc) (fun hc => Option.noConfusion hc)
      | error e =>
        dsimp only
        constructor
        · refine iff_of_false (fun hc => ?_) (fun hc => Option.noConfusion hc)
          rw [show ([lr.1, f.homepage, f.pkgName, f.declared, f.pkgVersion,
            skippedChunk e] : Row).drop 5 = [skippedChunk e] from rfl] at hc
          exact List.cons_ne_nil _ _ hc
        · exact iff_of_false (fun hc => hne hc) (fun hc => Option.noConfusion hc)

/-- Claim C3 (amended): when `build_rows` succeeds, it yields one row per
manifest, and a row's chunk sequence is empty exactly when no license file
was located for that package (readable or not), which is also exactly when
the row's path is the package directory rather than the license file path. -/
theorem c3_chunks_empty_iff : ∀ (inputs : List PkgInput) (rows : List Row),
    build_rows inputs = .ok rows →
    (inputs.all fun inp => match inp.license with
      | some lr => lr.1 != joinPath inp.pkgDirParts
      | none => true) = true →
    rows.length = inputs.length ∧
    ∀ pr ∈ rows.zip inputs,
      ((pr.1.drop 5 = []) ↔ pr.2.license = none) ∧
      ((pr.1.headD [] = joinPath pr.2.pkgDirParts) ↔ pr.2.license = none) := by
  intro inputs
  induction inputs with
  | nil =>
    intro rows hok _hpath
    have hrows : rows = [] := (Except.ok.inj hok).symm
    subst hrows
    exact ⟨rfl, by intro pr hpr; simp at hpr⟩
  | cons inp rest ih =>
    intro rows hok hpath
    cases hr : build_row inp with
    | error e =>
      rw [build_rows_cons, hr] at hok
      exact absurd hok (by simp [Except.bind])
    | ok r =>
      cases hrs : build_rows rest with
      | error e =>
        rw [build_rows_cons, hr, hrs] at hok
        exact absurd hok (by simp [Except.bind])
      | ok rs =>
        rw [build_rows_cons, hr, hrs] at hok
        simp only [Except.bind] at hok
        have hrows : rows = r :: rs := (Except.ok.inj hok).symm
        subst hrows
        simp only [List.all_cons, Bool.and_eq_true] at hpath
        obtain ⟨hp1, hprest⟩ := hpath
        obtain ⟨hlen, hall⟩ := ih rs hrs hprest
        refine ⟨by simp [hlen], ?_⟩
        intro pr hpr
        rw [List.zip_cons_cons] at hpr
        rcases List.mem_cons.mp hpr with h | h
        · subst h
          exact row_props inp r hr hp1
        · exact hall pr h

/-- A package with a readable (empty) license file. -/
def emptyLicenseInput : PkgInput :=
  { pkgDirParts := ["repo".data, "node_modules".data, "mypkg".data]
    manifest := none
    license := some ("LICENSE".data, []) }

/-- A package with no license file at all. -/
def noLicenseInput : PkgInput :=
  { pkgDirParts := ["x".data]
    manifest := none
    license := none }

/-- Witness for the amended C3: a package with a readable empty license file
and a package with no license file. -/
theorem c3_chunks_empty_iff_witness :
    build_rows [emptyLicenseInput, noLicenseInput] =
      .ok [["LICENSE".data, [], "mypkg".data, [], [], []],
        ["x".data, [], "x".data, [], []]] ∧
    (([emptyLicenseInput, noLicenseInput] : List PkgInput).all
      fun inp => match inp.license with
      | some lr => lr.1 != joinPath inp.pkgDirParts
      | none => true) = true ∧
    (([["LICENSE".data, [], "mypkg".data, [], [], []],
        ["x".data, [], "x".data, [], []]] : List Row).length =
      ([emptyLicenseInput, noLicenseInput] : List PkgInput).length ∧
     ∀ pr ∈ (([["LICENSE".data, [], "mypkg".data, [], [], []],
        ["x".data, [], "x".data, [], []]] : List Row).zip
          [emptyLicenseInput, noLicenseInput]),
       ((pr.1.drop 5 = []) ↔ pr.2.license = none) ∧
       ((pr.1.headD [] = joinPath pr.2.pkgDirParts) ↔ pr.2.license = none)) :=
  ⟨rfl, rfl, c3_chunks_empty_iff _ _ rfl rfl⟩

end GrabLicenses
